import Mathlib

/-!
Verification of the JSON-LD recipe extractor and field normalizers of
`ba-recipe-extractor` (a Vercel function `fetch` handler plus a browser
renderer in `src/main.ts`).

JavaScript values are modelled by a small `Json` inductive; results of
`JSON.parse` are assumed to have objects with unique keys (the parser keeps
the last duplicate, so parsed objects never carry duplicates).  Builtins the
repository calls but does not define — the regex script scanner, `JSON.parse`,
`new URL` — enter as function parameters, so every theorem quantifies over
their behaviour.  `String.prototype.trim` is modelled by `jsTrim` with the
ECMAScript whitespace set.
-/

/-- A parsed JSON value, the shape `JSON.parse` produces. -/
inductive Json where
  | null
  | bool (b : Bool)
  | num (n : Int)
  | str (s : String)
  | arr (elems : List Json)
  | obj (fields : List (String × Json))

/-- JS property access `record[key]` on a parsed object: first matching key
(parsed objects have unique keys). `none` models `undefined`. -/
def lookupField (fields : List (String × Json)) (key : String) : Option Json :=
  match fields with
  | [] => none
  | (k, v) :: rest => if k = key then some v else lookupField rest key

mutual

/-- Function `flattenJsonLd` of the server handler: arrays flatten recursively,
an object whose `@graph` property is an array yields itself followed by the
flattening of the graph entries, any other object yields itself, and
primitives (including `null`) yield nothing. -/
def flattenJsonLd : Json → List Json
  | .arr elems => flattenJsonLdList elems
  | .obj fields =>
    match flattenGraphOf fields with
    | some flat => .obj fields :: flat
    | none => [.obj fields]
  | _ => []

/-- The `record["@graph"]` access followed by the `Array.isArray(graph)`
check inside `flattenJsonLd`: on the first `@graph` key, an array value
yields the flattening of its entries and anything else yields `none`. -/
def flattenGraphOf : List (String × Json) → Option (List Json)
  | [] => none
  | (k, v) :: rest =>
    if k = "@graph" then
      match v with
      | .arr g => some (flattenJsonLdList g)
      | _ => none
    else flattenGraphOf rest

/-- Models `graph.flatMap((entry) => flattenJsonLd(entry))`. -/
def flattenJsonLdList : List Json → List Json
  | [] => []
  | v :: rest => flattenJsonLd v ++ flattenJsonLdList rest

end

/-- JS strict equality `x === "Recipe"` on an arbitrary parsed value. -/
def isRecipeType : Json → Bool
  | .str s => s == "Recipe"
  | _ => false

/-- Function `isRecipe` of the server handler: a non-null object whose `@type`
property is the string `"Recipe"`, or an array containing it. -/
def isRecipe : Json → Bool
  | .obj fields =>
    match lookupField fields "@type" with
    | some (.arr types) => types.any isRecipeType
    | some t => isRecipeType t
    | none => false
  | _ => false

/-- The ECMAScript whitespace and line-terminator set recognised by
`String.prototype.trim`. -/
def isJsWhitespace (c : Char) : Bool :=
  c == ' ' || c == '\t' || c == '\n' || c == '\r' ||
  c == '\x0b' || c == '\x0c' || c == '\u00A0' || c == '\uFEFF' ||
  c == '\u1680' || ('\u2000' ≤ c && c ≤ '\u200A') ||
  c == '\u2028' || c == '\u2029' || c == '\u202F' || c == '\u205F' ||
  c == '\u3000'

/-- Drop leading JS whitespace from a character list. -/
def dropLeadingWs : List Char → List Char
  | [] => []
  | c :: rest => if isJsWhitespace c then dropLeadingWs rest else c :: rest

/-- Models `String.prototype.trim`: strip JS whitespace from both ends. -/
def jsTrim (s : String) : String :=
  String.mk ((dropLeadingWs ((dropLeadingWs s.data).reverse)).reverse)

/-- Models `String.prototype.split(/\r?\n/)`: cut at every `\r\n` or bare `\n`
(a lone `\r` is not a separator), keeping empty pieces. -/
def splitLinesAux : List Char → List Char → List String
  | [], acc => [String.mk acc.reverse]
  | '\r' :: '\n' :: rest, acc => String.mk acc.reverse :: splitLinesAux rest []
  | '\n' :: rest, acc => String.mk acc.reverse :: splitLinesAux rest []
  | c :: rest, acc => splitLinesAux rest (c :: acc)

/-- Models `value.split(/\r?\n/)` on a string. -/
def splitLines (s : String) : List String := splitLinesAux s.data []

/-- The body of the `for` loop of `extractRecipeFromHtml` for one raw script
block: trim, skip when empty, parse (a parse failure — the `catch` — is
`parse = none`), flatten.  `parse` stands for `JSON.parse`. -/
def blockCandidates (parse : String → Option Json) (raw : String) : List Json :=
  let trimmed := jsTrim raw
  if trimmed.isEmpty then []
  else
    match parse trimmed with
    | some v => flattenJsonLd v
    | none => []

/-- The `jsonObjects` array of `extractRecipeFromHtml`: candidates of every
block, in document order. -/
def extractCandidates (parse : String → Option Json) (scripts : List String) :
    List Json :=
  scripts.flatMap (blockCandidates parse)

/-- Function `extractRecipeFromHtml` after the script scan: `jsonObjects.find(isRecipe)`
with `undefined` collapsed to `null` (both are `none`). -/
def extractRecipeFromScripts (parse : String → Option Json)
    (scripts : List String) : Option Json :=
  (extractCandidates parse scripts).find? isRecipe

/-- Function `extractRecipeFromHtml`, parameterised by the regex script scanner
`findJsonLdScripts` and by `JSON.parse`. -/
def extractRecipeFromHtml (findScripts : String → List String)
    (parse : String → Option Json) (html : String) : Option Json :=
  extractRecipeFromScripts parse (findScripts html)

/-- The fixed publisher allow-list (`ALLOWED_HOSTS` in the handler, a `Set`
constructed once). -/
def ALLOWED_HOSTS : List String := ["bonappetit.com", "www.bonappetit.com"]

/-- What the handler reads off a successfully constructed `URL`. -/
structure ParsedUrl where
  hostname : String
  path : String

/-- An upstream `fetch` that completed with a status and a body text. -/
structure UpstreamResponse where
  status : Nat
  body : String

/-- Models `response.ok`: status in the inclusive range 200–299. -/
def statusOk (status : Nat) : Bool := 200 ≤ status && status ≤ 299

/-- Body of a `Response`: plain text or serialised JSON. -/
inductive ResponseBody where
  | text (s : String)
  | json (v : Json)

/-- An HTTP response of the handler. -/
structure HttpResponse where
  status : Nat
  body : ResponseBody

/-- The Vercel `fetch` handler, parameterised by the `new URL` constructor
(`parseUrl`, `none` models the thrown `TypeError`), the upstream `fetch`
(assumed to complete), the script scanner and `JSON.parse`.  `target` is
`url.searchParams.get("url")`; the empty string is falsy in the missing-check.
The fire-and-forget log inside `waitUntil` has no effect on the response and
is not modelled. -/
def handleRecipeRequest (parseUrl : String → Option ParsedUrl)
    (upstream : ParsedUrl → UpstreamResponse)
    (findScripts : String → List String) (parse : String → Option Json)
    (target : Option String) : HttpResponse :=
  match target with
  | none => ⟨400, .text "Missing url parameter."⟩
  | some t =>
    if t.isEmpty then ⟨400, .text "Missing url parameter."⟩
    else
      match parseUrl t with
      | none => ⟨400, .text "Invalid url parameter."⟩
      | some targetUrl =>
        if ALLOWED_HOSTS.contains targetUrl.hostname then
          let response := upstream targetUrl
          if statusOk response.status then
            match extractRecipeFromHtml findScripts parse response.body with
            | some recipe => ⟨200, .json recipe⟩
            | none => ⟨422, .text "No Recipe JSON-LD found on that page."⟩
          else
            ⟨502, .text ("Upstream request failed (" ++
              toString response.status ++ ").")⟩
        else ⟨400, .text "Only bonappetit.com URLs are allowed."⟩

/-- The `recipeIngredient` field shape: `string[] | string` (`none` is an
absent field). -/
inductive IngredientsValue where
  | str (s : String)
  | arr (items : List String)

/-- Function `normalizeIngredients` of `src/main.ts`.  `!value` is true for an
absent field and for the empty string; arrays are always truthy. -/
def normalizeIngredients : Option IngredientsValue → List String
  | none => []
  | some (.arr items) => (items.map jsTrim).filter (fun s => !s.isEmpty)
  | some (.str s) =>
    if s.isEmpty then []
    else ((splitLines s).map jsTrim).filter (fun s => !s.isEmpty)

/-- An `itemListElement` value (`unknown` in the source); only being a
string matters to the code. -/
inductive IleValue where
  | str (s : String)
  | nonString

/-- A step object `{ text?: string; name?: string; itemListElement?: unknown }`
(the code never reads `name`). -/
structure InstructionStep where
  text : Option String
  name : Option String
  itemListElement : Option IleValue

/-- One element of a `recipeInstructions` array. -/
inductive InstructionItem where
  | str (s : String)
  | step (o : InstructionStep)

/-- The `recipeInstructions` field shape:
`string | Array<string | step> | step`. -/
inductive InstructionsValue where
  | str (s : String)
  | arr (items : List InstructionItem)
  | step (o : InstructionStep)

/-- The arrow body of the `flatMap` in `normalizeInstructions`: a string is
kept; `item?.text` is used when truthy (present and non-empty); otherwise a
string-valued `itemListElement` is used; otherwise nothing. -/
def instructionItemContribution : InstructionItem → List String
  | .str s => [s]
  | .step o =>
    match o.text with
    | some t =>
      if t.isEmpty then
        match o.itemListElement with
        | some (.str u) => [u]
        | _ => []
      else [t]
    | none =>
      match o.itemListElement with
      | some (.str u) => [u]
      | _ => []

/-- Function `normalizeInstructions` of `src/main.ts`. -/
def normalizeInstructions : Option InstructionsValue → List String
  | none => []
  | some (.str s) =>
    if s.isEmpty then []
    else ((splitLines s).map jsTrim).filter (fun x => !x.isEmpty)
  | some (.arr items) =>
    ((items.flatMap instructionItemContribution).map jsTrim).filter
      (fun x => !x.isEmpty)
  | some (.step o) =>
    match o.text with
    | some t => if t.isEmpty then [] else [jsTrim t].filter (fun x => !x.isEmpty)
    | none => []

/-- One element of an `image` array: a string or an object with an optional
`url`. -/
inductive ImageItem where
  | str (s : String)
  | obj (url : Option String)

/-- The `image` field shape:
`string | string[] | { url?: string } | Array<{ url?: string }>`. -/
inductive ImageValue where
  | str (s : String)
  | arr (items : List ImageItem)
  | obj (url : Option String)

/-- Function `resolveImageUrl` of `src/main.ts`.  `!value` is true for an absent
field and for the empty string; on an array only `value[0]` is consulted
(`first?.url ?? null`, so an empty array gives `null`). -/
def resolveImageUrl : Option ImageValue → Option String
  | none => none
  | some (.str s) => if s.isEmpty then none else some s
  | some (.arr items) =>
    match items with
    | [] => none
    | .str s :: _ => some s
    | .obj url :: _ => url
  | some (.obj url) => url

/-- The image resolution C6 claims: literally "a string input yields itself",
with the other cases as the code has them.  Kept for comparison with
`resolveImageUrl`. -/
def resolveImageUrlClaimed : Option ImageValue → Option String
  | none => none
  | some (.str s) => some s
  | some (.arr items) =>
    match items with
    | [] => none
    | .str s :: _ => some s
    | .obj url :: _ => url
  | some (.obj url) => url

/-- The per-element contribution C5 claims: literally "an object with a text
field contributes that text", before truthiness.  Kept for comparison with
`instructionItemContribution`. -/
def instructionItemContributionClaimed : InstructionItem → List String
  | .str s => [s]
  | .step o =>
    match o.text with
    | some t => [t]
    | none =>
      match o.itemListElement with
      | some (.str u) => [u]
      | _ => []

/-- The instruction normalization C5 claims on arrays, built from the claimed
per-element contribution. -/
def normalizeInstructionsClaimed (items : List InstructionItem) : List String :=
  ((items.flatMap instructionItemContributionClaimed).map jsTrim).filter
    (fun x => !x.isEmpty)

/-- A Recipe-typed object, used as the concrete witness object. -/
def recipeLevel2 : Json :=
  .obj [("@type", .str "Recipe"), ("name", .str "Tarte")]

/-- A JSON-LD document with the Recipe nested two levels inside `@graph`
collections. -/
def nestedGraphDoc : Json :=
  .obj [("@graph", .arr [.obj [("@graph", .arr [recipeLevel2])]])]

/-- A JSON-LD object that is not a Recipe. -/
def articleDoc : Json := .obj [("@type", .str "Article")]

/-- A Recipe-typed object sitting in a second top-level block. -/
def recipeObjB : Json := .obj [("@type", .str "Recipe"), ("name", .str "B")]

/-! ## Helper lemmas -/

/-- Unfolding of `lookupField` on a cons. -/
theorem lookupField_cons (k : String) (v : Json) (rest : List (String × Json))
    (key : String) :
    lookupField ((k, v) :: rest) key =
      if k = key then some v else lookupField rest key := rfl

/-- Skipping a non-`@graph` key in `flattenGraphOf`. -/
theorem flattenGraphOf_cons_ne (k : String) (v : Json)
    (rest : List (String × Json)) (hk : k ≠ "@graph") :
    flattenGraphOf ((k, v) :: rest) = flattenGraphOf rest := by
  conv_lhs => rw [flattenGraphOf.eq_def]
  simp [hk]

/-- Unfolding of `flattenJsonLd` on an object whose `@graph` flattens. -/
theorem flattenJsonLd_obj_some (fields : List (String × Json))
    (flat : List Json) (h : flattenGraphOf fields = some flat) :
    flattenJsonLd (.obj fields) = .obj fields :: flat := by
  rw [flattenJsonLd.eq_def]
  simp [h]

/-- Unfolding of `flattenJsonLd` on an object without a `@graph` array. -/
theorem flattenJsonLd_obj_none (fields : List (String × Json))
    (h : flattenGraphOf fields = none) :
    flattenJsonLd (.obj fields) = [.obj fields] := by
  rw [flattenJsonLd.eq_def]
  simp [h]

/-- The list flattener is `flatMap` of the value flattener. -/
theorem flattenJsonLdList_eq_flatMap (l : List Json) :
    flattenJsonLdList l = l.flatMap flattenJsonLd := by
  induction l with
  | nil => rfl
  | cons v rest ih => simp [flattenJsonLdList, ih]

/-- When the `@graph` property is an array, `flattenGraphOf` flattens its
entries. -/
theorem flattenGraphOf_of_lookup_arr (fields : List (String × Json))
    (g : List Json) (h : lookupField fields "@graph" = some (.arr g)) :
    flattenGraphOf fields = some (flattenJsonLdList g) := by
  induction fields with
  | nil => simp [lookupField] at h
  | cons kv rest ih =>
    obtain ⟨k, v⟩ := kv
    by_cases hk : k = "@graph"
    · subst hk
      rw [lookupField_cons, if_pos rfl] at h
      injection h with h
      subst h
      rfl
    · rw [lookupField_cons, if_neg hk] at h
      rw [flattenGraphOf_cons_ne k v rest hk]
      exact ih h

/-- When the `@graph` property is not an array (or absent), `flattenGraphOf`
yields nothing. -/
theorem flattenGraphOf_of_lookup_other (fields : List (String × Json))
    (h : ∀ g, lookupField fields "@graph" ≠ some (.arr g)) :
    flattenGraphOf fields = none := by
  induction fields with
  | nil => rfl
  | cons kv rest ih =>
    obtain ⟨k, v⟩ := kv
    by_cases hk : k = "@graph"
    · subst hk
      cases v with
      | arr g => exact absurd (by rw [lookupField_cons, if_pos rfl]) (h g)
      | null => rfl
      | bool b => rfl
      | num n => rfl
      | str s => rfl
      | obj fs => rfl
    · rw [flattenGraphOf_cons_ne k v rest hk]
      exact ih fun g hg => h g (by rw [lookupField_cons, if_neg hk]; exact hg)

/-- A value equals `"Recipe"` under JS strict equality iff it is that very
string. -/
theorem isRecipeType_eq_true (v : Json) :
    isRecipeType v = true ↔ v = .str "Recipe" := by
  cases v <;> simp [isRecipeType]

/-- In a list whose prefix has no match, `find?` returns the first match. -/
theorem find?_first_past_prefix {α : Type} (p : α → Bool) (l1 l2 : List α)
    (r : α) (h1 : ∀ x ∈ l1, p x = false) (hr : p r = true) :
    List.find? p (l1 ++ r :: l2) = some r := by
  induction l1 with
  | nil => simp [List.find?, hr]
  | cons a as ih =>
    simp only [List.cons_append, List.find?]
    rw [h1 a (by simp)]
    exact ih fun x hx => h1 x (by simp [hx])

/-- A block whose trimmed text does not parse contributes no candidates. -/
theorem blockCandidates_of_parse_none (parse : String → Option Json)
    (raw : String) (h : parse (jsTrim raw) = none) :
    blockCandidates parse raw = [] := by
  simp [blockCandidates, h]

/-- Every member of a flattening is a JSON object. -/
theorem flattenJsonLd_members_are_objects :
    ∀ v : Json, ∀ x ∈ flattenJsonLd v, ∃ fields, x = Json.obj fields := by
  refine flattenJsonLd.induct
    (fun v => ∀ x ∈ flattenJsonLd v, ∃ fields, x = Json.obj fields)
    (fun fields => ∀ flat, flattenGraphOf fields = some flat →
      ∀ x ∈ flat, ∃ fs, x = Json.obj fs)
    (fun l => ∀ x ∈ flattenJsonLdList l, ∃ fs, x = Json.obj fs)
    ?_ ?_ ?_ ?_ ?_ ?_ ?_ ?_ ?_ ?_
  · intro elems h x hx
    exact h x hx
  · intro fields flat hsome h x hx
    rw [flattenJsonLd_obj_some fields flat hsome] at hx
    rcases List.mem_cons.mp hx with h1 | h2
    · exact ⟨fields, h1⟩
    · exact h flat hsome x h2
  · intro fields hnone h x hx
    rw [flattenJsonLd_obj_none fields hnone] at hx
    exact ⟨fields, List.mem_singleton.mp hx⟩
  · intro t harr hobj x hx
    cases t with
    | arr elems => exact absurd rfl (harr elems)
    | obj fields => exact absurd rfl (hobj fields)
    | null => cases hx
    | bool b => cases hx
    | num n => cases hx
    | str s => cases hx
  · intro x hx
    cases hx
  · intro v rest hv hrest x hx
    rcases List.mem_append.mp hx with h1 | h2
    · exact hv x h1
    · exact hrest x h2
  · intro flat hflat
    cases hflat
  · intro rest g hg flat hflat x hx
    injection hflat with hflat
    subst hflat
    exact hg x hx
  · intro v rest hnotarr flat hflat x hx
    rw [show flattenGraphOf (("@graph", v) :: rest) = none by
      cases v with
      | arr g => exact absurd rfl (hnotarr g)
      | null => rfl
      | bool b => rfl
      | num n => rfl
      | str s => rfl
      | obj fs => rfl] at hflat
    cases hflat
  · intro k v rest hk ih flat hflat x hx
    rw [flattenGraphOf_cons_ne k v rest hk] at hflat
    exact ih flat hflat x hx

/-! ## Claim theorems -/

/-- C1: flattening a parsed JSON-LD value: a sequence is recursively
flattened element by element; an object containing a `@graph` sequence yields
the object itself followed by the recursive flattening of every element of
that sequence; any other object is yielded as-is; and a Recipe-typed object
nested two levels inside `@graph` collections is still reached by
extraction. -/
theorem C1_flatten_behaviour :
    (∀ elems : List Json,
       flattenJsonLd (.arr elems) = elems.flatMap flattenJsonLd) ∧
    (∀ (fields : List (String × Json)) (g : List Json),
       lookupField fields "@graph" = some (.arr g) →
       flattenJsonLd (.obj fields) = .obj fields :: g.flatMap flattenJsonLd) ∧
    (∀ fields : List (String × Json),
       (∀ g, lookupField fields "@graph" ≠ some (.arr g)) →
       flattenJsonLd (.obj fields) = [.obj fields]) ∧
    extractRecipeFromScripts
      (fun s => if s = "blockS" then some nestedGraphDoc else none) ["blockS"]
      = some recipeLevel2 := by
  refine ⟨?_, ?_, ?_, rfl⟩
  · intro elems
    exact flattenJsonLdList_eq_flatMap elems
  · intro fields g h
    rw [flattenJsonLd_obj_some fields (flattenJsonLdList g)
      (flattenGraphOf_of_lookup_arr fields g h), flattenJsonLdList_eq_flatMap]
  · intro fields h
    exact flattenJsonLd_obj_none fields (flattenGraphOf_of_lookup_other fields h)

/-- Witness for C1: a one-entry `@graph` object and a graph-free object. -/
theorem C1_flatten_behaviour_witness :
    flattenJsonLd (.obj [("@graph", .arr [.null])]) =
      .obj [("@graph", .arr [.null])] :: [Json.null].flatMap flattenJsonLd ∧
    flattenJsonLd (.obj [("name", .str "x")]) = [.obj [("name", .str "x")]] :=
  ⟨C1_flatten_behaviour.2.1 [("@graph", .arr [.null])] [.null] rfl,
   C1_flatten_behaviour.2.2.1 [("name", .str "x")]
     (by intro g hg; simp [lookupField] at hg)⟩

/-- C10: every element the flattening returns is a non-null, non-array JSON
object; primitives at top level, inside sequences and inside `@graph`
collections are dropped and never reach the candidate list. -/
theorem C10_flatten_invariant :
    (∀ v : Json, ∀ x ∈ flattenJsonLd v, ∃ fields, x = Json.obj fields) ∧
    flattenJsonLd .null = [] ∧
    (∀ b, flattenJsonLd (.bool b) = []) ∧
    (∀ n, flattenJsonLd (.num n) = []) ∧
    (∀ s, flattenJsonLd (.str s) = []) ∧
    flattenJsonLd (.arr [.str "x", .num 3, .bool true, .null]) = [] ∧
    flattenJsonLd (.obj [("@graph", .arr [.str "x", .num 3])]) =
      [.obj [("@graph", .arr [.str "x", .num 3])]] :=
  ⟨flattenJsonLd_members_are_objects, rfl, fun _ => rfl, fun _ => rfl,
   fun _ => rfl, rfl, rfl⟩

/-- Witness for C10 at a singleton object flattening. -/
theorem C10_flatten_invariant_witness :
    ∃ fields, Json.obj [("a", Json.null)] = Json.obj fields :=
  C10_flatten_invariant.1 (.obj [("a", .null)]) (.obj [("a", .null)])
    (List.mem_singleton.mpr rfl)

/-- Candidate lists concatenate over block-list concatenation. -/
theorem extractCandidates_append (parse : String → Option Json)
    (xs ys : List String) :
    extractCandidates parse (xs ++ ys) =
      extractCandidates parse xs ++ extractCandidates parse ys := by
  simp [extractCandidates]

/-- Candidate list of a cons of blocks. -/
theorem extractCandidates_cons (parse : String → Option Json) (s : String)
    (rest : List String) :
    extractCandidates parse (s :: rest) =
      blockCandidates parse s ++ extractCandidates parse rest := by
  simp [extractCandidates]

/-- C2: extraction selects the first candidate, in document-then-graph order
across all blocks, whose `@type` equals the exact string `"Recipe"` or is a
sequence containing it; matching is case-sensitive (`"recipe"` does not
match), and a Recipe in a later block is found when earlier blocks have
none. -/
theorem C2_first_recipe_selected :
    (∀ v : Json, isRecipe v = true ↔
       ∃ fields, v = .obj fields ∧
         (lookupField fields "@type" = some (.str "Recipe") ∨
          ∃ types, lookupField fields "@type" = some (.arr types) ∧
            Json.str "Recipe" ∈ types)) ∧
    (∀ (parse : String → Option Json) (scripts : List String)
       (l1 l2 : List Json) (r : Json),
       extractCandidates parse scripts = l1 ++ r :: l2 →
       isRecipe r = true →
       (∀ x ∈ l1, isRecipe x = false) →
       extractRecipeFromScripts parse scripts = some r) ∧
    isRecipe (.obj [("@type", .str "recipe")]) = false ∧
    extractRecipeFromScripts
      (fun s => if s = "blockA" then some articleDoc
                else if s = "blockB" then some recipeObjB else none)
      ["blockA", "blockB"] = some recipeObjB := by
  refine ⟨?_, ?_, rfl, rfl⟩
  · intro v
    cases v with
    | null => simp [isRecipe]
    | bool b => simp [isRecipe]
    | num n => simp [isRecipe]
    | str s => simp [isRecipe]
    | arr elems => simp [isRecipe]
    | obj fields =>
      cases ht : lookupField fields "@type" with
      | none => simp [isRecipe, ht]
      | some t =>
        cases t with
        | arr types =>
          simp [isRecipe, ht, List.any_eq_true, isRecipeType_eq_true]
        | null => simp [isRecipe, ht, isRecipeType]
        | bool b => simp [isRecipe, ht, isRecipeType]
        | num n => simp [isRecipe, ht, isRecipeType]
        | str s => simp [isRecipe, ht, isRecipeType]
        | obj fs => simp [isRecipe, ht, isRecipeType]
  · intro parse scripts l1 l2 r hcand hr h1
    unfold extractRecipeFromScripts
    rw [hcand]
    exact find?_first_past_prefix isRecipe l1 l2 r h1 hr

/-- Witness for C2: a single block whose array holds one Recipe object. -/
theorem C2_first_recipe_selected_witness :
    extractRecipeFromScripts
      (fun s => if s = "blockX" then some (.arr [recipeObjB]) else none)
      ["blockX"] = some recipeObjB :=
  C2_first_recipe_selected.2.1 _ ["blockX"] [] [] recipeObjB rfl rfl
    (by intro x hx; cases hx)

/-- C3: with zero script blocks extraction returns `none`; when every block
fails to parse it returns `none` (the embedding is total, so nothing is
thrown); and an unparseable block is discarded without affecting the result
of the remaining blocks. -/
theorem C3_absence_on_no_parse :
    (∀ parse : String → Option Json,
       extractRecipeFromScripts parse [] = none) ∧
    (∀ (parse : String → Option Json) (scripts : List String),
       (∀ s ∈ scripts, parse (jsTrim s) = none) →
       extractRecipeFromScripts parse scripts = none) ∧
    (∀ (parse : String → Option Json) (pre post : List String) (bad : String),
       parse (jsTrim bad) = none →
       extractRecipeFromScripts parse (pre ++ bad :: post) =
         extractRecipeFromScripts parse (pre ++ post)) := by
  refine ⟨fun _ => rfl, ?_, ?_⟩
  · intro parse scripts h
    have hc : extractCandidates parse scripts = [] := by
      induction scripts with
      | nil => rfl
      | cons s rest ih =>
        rw [extractCandidates_cons,
          blockCandidates_of_parse_none parse s (h s (by simp)),
          List.nil_append]
        exact ih fun x hx => h x (by simp [hx])
    unfold extractRecipeFromScripts
    rw [hc]
    rfl
  · intro parse pre post bad hbad
    unfold extractRecipeFromScripts
    rw [extractCandidates_append, extractCandidates_append,
      extractCandidates_cons, blockCandidates_of_parse_none parse bad hbad,
      List.nil_append]

/-- Witness for C3: one malformed block. -/
theorem C3_absence_on_no_parse_witness :
    extractRecipeFromScripts (fun _ => none) ["not json"] = none :=
  C3_absence_on_no_parse.2.1 (fun _ => none) ["not json"] fun _ _ => rfl

/-- A non-empty string is not `isEmpty`. -/
theorem isEmpty_false_of_ne (s : String) (h : s ≠ "") : s.isEmpty = false := by
  cases heq : s.isEmpty
  · rfl
  · exact absurd ((String.isEmpty_iff s).mp heq) h

/-- C4: ingredient normalization: an array is trimmed entry-wise with empty
entries dropped and order preserved; a string is split on `\n` and `\r\n`,
trimmed, with empties dropped; an absent field yields the empty list (the
function is total, never a failure).  The claim's concrete example holds. -/
theorem C4_normalizeIngredients_shapes :
    normalizeIngredients none = [] ∧
    (∀ items : List String,
       normalizeIngredients (some (.arr items)) =
         (items.map jsTrim).filter (fun s => !s.isEmpty)) ∧
    (∀ s : String,
       normalizeIngredients (some (.str s)) =
         ((splitLines s).map jsTrim).filter (fun x => !x.isEmpty)) ∧
    normalizeIngredients (some (.str "2 eggs\n1 cup flour\n\n")) =
      ["2 eggs", "1 cup flour"] ∧
    normalizeIngredients (some (.str "a\r\nb")) = ["a", "b"] := by
  refine ⟨rfl, fun items => rfl, ?_, rfl, rfl⟩
  intro s
  by_cases hs : s.isEmpty
  · rw [String.isEmpty_iff] at hs
    subst hs
    rfl
  · simp only [Bool.not_eq_true] at hs
    simp [normalizeIngredients, hs]

/-- C9: ingredient normalization is the identity on already-clean lists:
entries trimmed and non-empty come back unchanged, in order. -/
theorem C9_clean_roundtrip (items : List String)
    (h : ∀ x ∈ items, jsTrim x = x ∧ x ≠ "") :
    normalizeIngredients (some (.arr items)) = items := by
  show (items.map jsTrim).filter (fun s => !s.isEmpty) = items
  induction items with
  | nil => rfl
  | cons a as ih =>
    have ha := h a (by simp)
    have hne := isEmpty_false_of_ne a ha.2
    rw [List.map_cons, ha.1, List.filter_cons_of_pos (by simp [hne])]
    rw [ih fun x hx => h x (by simp [hx])]

/-- Witness for C9 on a clean two-entry list. -/
theorem C9_clean_roundtrip_witness :
    normalizeIngredients (some (.arr ["2 eggs", "1 cup flour"])) =
      ["2 eggs", "1 cup flour"] :=
  C9_clean_roundtrip ["2 eggs", "1 cup flour"] (by decide)

/-- C5 counterexample: the code checks `item?.text` for truthiness, so a step
whose `text` is the empty string falls through to `itemListElement`, while
the claim's dispatch ("an object with a text field contributes that text")
keeps the empty text and so contributes nothing after the empty-drop. -/
theorem C5_text_truthiness_counterexample :
    normalizeInstructions
      (some (.arr [.step ⟨some "", none, some (.str "Bake")⟩])) = ["Bake"] ∧
    normalizeInstructionsClaimed [.step ⟨some "", none, some (.str "Bake")⟩]
      = [] :=
  ⟨rfl, rfl⟩

/-- C5 (amended): instruction normalization: a string input splits on line
breaks, trimmed, empties dropped; an array input flattens per-element
contributions in order — a string as-is, an object with a *non-empty* (truthy)
`text` contributes that text, an object without truthy text whose
`itemListElement` is a string contributes that string, any other element
contributes nothing — then trims and drops empties.  The claim's concrete
example holds. -/
theorem C5_normalizeInstructions_shapes :
    normalizeInstructions none = [] ∧
    (∀ s : String,
       normalizeInstructions (some (.str s)) =
         ((splitLines s).map jsTrim).filter (fun x => !x.isEmpty)) ∧
    (∀ items : List InstructionItem,
       normalizeInstructions (some (.arr items)) =
         ((items.flatMap instructionItemContribution).map jsTrim).filter
           (fun x => !x.isEmpty)) ∧
    (∀ s : String, instructionItemContribution (.str s) = [s]) ∧
    (∀ (t : String) (nm : Option String) (ile : Option IleValue), t ≠ "" →
       instructionItemContribution (.step ⟨some t, nm, ile⟩) = [t]) ∧
    (∀ (t? : Option String) (nm : Option String) (u : String),
       t? = none ∨ t? = some "" →
       instructionItemContribution (.step ⟨t?, nm, some (.str u)⟩) = [u]) ∧
    (∀ (t? : Option String) (nm : Option String) (ile : Option IleValue),
       t? = none ∨ t? = some "" → (∀ u, ile ≠ some (.str u)) →
       instructionItemContribution (.step ⟨t?, nm, ile⟩) = []) ∧
    normalizeInstructions (some (.arr
      [.step ⟨some "Preheat oven", none, none⟩, .str "Mix",
       .step ⟨none, none, some (.str "Bake")⟩, .step ⟨none, none, none⟩])) =
      ["Preheat oven", "Mix", "Bake"] := by
  refine ⟨rfl, ?_, fun items => rfl, fun s => rfl, ?_, ?_, ?_, rfl⟩
  · intro s
    by_cases hs : s.isEmpty
    · rw [String.isEmpty_iff] at hs
      subst hs
      rfl
    · simp only [Bool.not_eq_true] at hs
      simp [normalizeInstructions, hs]
  · intro t nm ile ht
    simp [instructionItemContribution, isEmpty_false_of_ne t ht]
  · intro t? nm u h
    rcases h with h | h <;> subst h <;> rfl
  · intro t? nm ile ht hile
    have hnot : (match ile with
        | some (.str u) => ([u] : List String)
        | _ => []) = [] := by
      match ile with
      | none => rfl
      | some (.str u) => exact absurd rfl (hile u)
      | some .nonString => rfl
    rcases ht with h | h <;> subst h <;> exact hnot

/-- Witness for C5 on a truthy-text step. -/
theorem C5_normalizeInstructions_shapes_witness :
    instructionItemContribution (.step ⟨some "Stir", none, none⟩) = ["Stir"] :=
  C5_normalizeInstructions_shapes.2.2.2.2.1 "Stir" none none (by decide)

/-- C6 counterexample: on the empty string the code's falsy check returns
`null`, while the claim says a string input yields itself. -/
theorem C6_empty_string_counterexample :
    resolveImageUrl (some (.str "")) = none ∧
    resolveImageUrlClaimed (some (.str "")) = some "" :=
  ⟨rfl, rfl⟩

/-- C6 (amended): image resolution yields at most one URL, never a list: a
*non-empty* string yields itself (the empty string is falsy and yields
absence); an array is resolved from its first element only — a string yields
itself, an object its `url` field or absence, an empty array absence; a plain
object yields its `url` field or absence.  First-wins on the claim's concrete
two-image array. -/
theorem C6_resolveImageUrl_shapes :
    resolveImageUrl none = none ∧
    (∀ s : String, s ≠ "" → resolveImageUrl (some (.str s)) = some s) ∧
    resolveImageUrl (some (.str "")) = none ∧
    resolveImageUrl (some (.arr [])) = none ∧
    (∀ (s : String) (rest : List ImageItem),
       resolveImageUrl (some (.arr (.str s :: rest))) = some s) ∧
    (∀ (url : Option String) (rest : List ImageItem),
       resolveImageUrl (some (.arr (.obj url :: rest))) = url) ∧
    (∀ url : Option String, resolveImageUrl (some (.obj url)) = url) ∧
    resolveImageUrl (some (.arr [.obj (some "https://x/1.jpg"),
      .obj (some "https://x/2.jpg")])) = some "https://x/1.jpg" := by
  refine ⟨rfl, ?_, rfl, rfl, fun _ _ => rfl, fun _ _ => rfl, fun _ => rfl, rfl⟩
  intro s hs
  simp [resolveImageUrl, isEmpty_false_of_ne s hs]

/-- Witness for C6 on a non-empty string input. -/
theorem C6_resolveImageUrl_shapes_witness :
    resolveImageUrl (some (.str "https://x/a.jpg")) = some "https://x/a.jpg" :=
  C6_resolveImageUrl_shapes.2.1 "https://x/a.jpg" (by decide)

/-- With a non-empty target that parses to a non-allow-listed URL the handler
answers the policy rejection. -/
theorem handleRecipeRequest_disallowed (parseUrl : String → Option ParsedUrl)
    (upstream : ParsedUrl → UpstreamResponse)
    (findScripts : String → List String) (parse : String → Option Json)
    (t : String) (u : ParsedUrl)
    (ht : ¬t.isEmpty = true) (hu : parseUrl t = some u)
    (hhost : u.hostname ∉ ALLOWED_HOSTS) :
    handleRecipeRequest parseUrl upstream findScripts parse (some t) =
      ⟨400, .text "Only bonappetit.com URLs are allowed."⟩ := by
  simp only [handleRecipeRequest, hu, if_neg ht]
  rw [if_neg (by simpa using hhost)]

/-- C7: a request whose `url` parameter parses as a URL whose hostname is not
one of the two allow-listed hostnames gets status 400; in particular, with
hostname `evil.com` the full rejection response comes back whatever the
path. -/
theorem C7_disallowed_host_400 :
    (∀ (parseUrl : String → Option ParsedUrl)
       (upstream : ParsedUrl → UpstreamResponse)
       (findScripts : String → List String) (parse : String → Option Json)
       (t : String) (u : ParsedUrl), parseUrl t = some u →
       u.hostname ∉ ALLOWED_HOSTS →
       (handleRecipeRequest parseUrl upstream findScripts parse
         (some t)).status = 400) ∧
    (∀ (upstream : ParsedUrl → UpstreamResponse)
       (findScripts : String → List String) (parse : String → Option Json)
       (path t : String), ¬t.isEmpty = true →
       handleRecipeRequest (fun _ => some ⟨"evil.com", path⟩) upstream
         findScripts parse (some t) =
         ⟨400, .text "Only bonappetit.com URLs are allowed."⟩) := by
  constructor
  · intro parseUrl upstream findScripts parse t u hu hhost
    by_cases ht : t.isEmpty
    · simp [handleRecipeRequest, ht]
    · rw [handleRecipeRequest_disallowed parseUrl upstream findScripts parse
        t u ht hu hhost]
  · intro upstream findScripts parse path t ht
    exact handleRecipeRequest_disallowed _ _ _ _ t ⟨"evil.com", path⟩ ht rfl
      (show ("evil.com" : String) ∉ ALLOWED_HOSTS by decide)

/-- Witness for C7: an `evil.com` recipe URL is rejected. -/
theorem C7_disallowed_host_400_witness :
    (handleRecipeRequest (fun _ => some ⟨"evil.com", "/recipes/cake"⟩)
      (fun _ => ⟨200, ""⟩) (fun _ => []) (fun _ => none)
      (some "https://evil.com/recipes/cake")).status = 400 :=
  C7_disallowed_host_400.1 _ _ _ _ "https://evil.com/recipes/cake"
    ⟨"evil.com", "/recipes/cake"⟩ rfl (by decide)

/-- C8: an allowed request whose upstream fetch completes with a non-success
status gets a 502 whose plain-text body embeds the upstream status code. -/
theorem C8_upstream_failure_502
    (parseUrl : String → Option ParsedUrl)
    (upstream : ParsedUrl → UpstreamResponse)
    (findScripts : String → List String) (parse : String → Option Json)
    (t : String) (u : ParsedUrl)
    (ht : ¬t.isEmpty = true) (hu : parseUrl t = some u)
    (hhost : u.hostname ∈ ALLOWED_HOSTS)
    (hbad : statusOk (upstream u).status = false) :
    handleRecipeRequest parseUrl upstream findScripts parse (some t) =
      ⟨502, .text ("Upstream request failed (" ++
        toString (upstream u).status ++ ").")⟩ ∧
    ∃ pre post,
      "Upstream request failed (" ++ toString (upstream u).status ++ ")." =
        pre ++ toString (upstream u).status ++ post := by
  refine ⟨?_, "Upstream request failed (", ").", rfl⟩
  simp only [handleRecipeRequest, hu, if_neg ht]
  rw [if_pos (by simpa using hhost)]
  simp [hbad]

/-- Witness for C8: an upstream 404 yields a 502 whose message contains
`404`. -/
theorem C8_upstream_failure_502_witness :
    handleRecipeRequest (fun _ => some ⟨"bonappetit.com", "/r"⟩)
      (fun _ => ⟨404, ""⟩) (fun _ => []) (fun _ => none) (some "u") =
      ⟨502, .text "Upstream request failed (404)."⟩ ∧
    ∃ pre post, "Upstream request failed (404)." =
      pre ++ toString (404 : Nat) ++ post :=
  C8_upstream_failure_502 _ _ _ _ "u" ⟨"bonappetit.com", "/r"⟩ (by decide) rfl
    (by decide) (by decide)
